import Mathlib

/-
  Shallow embedding of the jasper-fetcher ingestion core:

  - src/services/schema-handler.js   (flattenRow, extractNestedData, ensureTable)
  - src/services/fetcher.js          (fetchPaginated pagination loop)
  - src/services/api-client.js       (non-JSON responses signalled as null)
  - src/database/mysql-adapter.js    (inferColumnType, createTable,
                                      addMissingColumns, insertBatch)
  - src/database/postgres-adapter.js (same interface, Postgres dialect)

  JavaScript values are modelled by `JValue` (with an explicit `undefined`
  constructor for `undefined`), objects by insertion-ordered association
  lists, and the destination database by an association list from table
  name to column list together with an explicit log of issued operations.
-/

/-- JavaScript values as seen by the ingestion core.  `undefined` models
`undefined` (absent properties and explicit `undefined` values); objects
keep their insertion order as association lists. -/
inductive JValue where
  | undefined
  | null
  | bool (b : Bool)
  | num (q : Rat)
  | str (s : String)
  | arr (elems : List JValue)
  | obj (fields : List (String × JValue))

/-- A JavaScript object, insertion-ordered: the flattened rows, nested rows
and response bodies the core manipulates. -/
abbrev Row := List (String × JValue)

/-- JavaScript falsiness: the values for which `!v` is true (`undefined`,
`null`, `false`, `0`, `""`; NaN has no counterpart in this model). -/
def jsFalsy : JValue → Bool
  | .undefined => true
  | .null => true
  | .bool b => !b
  | .num q => q == 0
  | .str s => s == ""
  | .arr _ => false
  | .obj _ => false

/-- The JavaScript test `typeof v === 'object' && v !== null`: true exactly
for arrays and plain objects (never for `null`, whose `typeof` is rescued by
the explicit null comparison everywhere the adapters use this test). -/
def jsIsNonNullObject : JValue → Bool
  | .arr _ => true
  | .obj _ => true
  | _ => false

/-- Whether a value is a plain (non-array) object. -/
def isObjV : JValue → Bool
  | .obj _ => true
  | _ => false

/-- Whether a value is an array. -/
def isArrV : JValue → Bool
  | .arr _ => true
  | _ => false

/-- Property lookup in an object's field list: `some` of the first binding's
value, `none` when the key is absent. -/
def rowGet (row : Row) (k : String) : Option JValue :=
  (row.find? (fun p => p.1 == k)).map (fun p => p.2)

/-- JavaScript property read `o[k]` on an object's field list: the bound
value, or `undefined` when the key is absent. -/
def jsProp (fields : Row) (k : String) : JValue :=
  match rowGet fields k with
  | some v => v
  | none => .undefined

/-- JavaScript property read `v[k]` on an arbitrary value: `undefined`
unless `v` is an object holding `k` (index properties of arrays and strings
are not consulted by the core under these key names). -/
def jsPropV : JValue → String → JValue
  | .obj fields, k => jsProp fields k
  | _, _ => .undefined

/-- JavaScript property assignment `o[k] = v` on an insertion-ordered
object: update the key's binding in place when it already exists (keeping
its position), otherwise append the new binding at the end. -/
def objInsert : Row → String → JValue → Row
  | [], k, v => [(k, v)]
  | p :: rest, k, v => if p.1 == k then (k, v) :: rest else p :: objInsert rest k v

/-- Object-literal construction from an entry sequence, later entries
overwriting earlier ones at their first position (JavaScript semantics). -/
def mkObj (l : List (String × JValue)) : Row :=
  l.foldl (fun acc kv => objInsert acc kv.1 kv.2) []

/-- JavaScript object-spread `{...v}`: the own enumerable properties of `v`.
Objects contribute their fields, arrays and strings their index-keyed
elements and characters, primitives nothing. -/
def spreadFields : JValue → List (String × JValue)
  | .obj fields => fields
  | .arr xs => xs.enum.map (fun p => (toString p.1, p.2))
  | .str s => s.toList.enum.map (fun p => (toString p.1, JValue.str (String.mk [p.2])))
  | _ => []

/-- The accumulator form of `SchemaHandler.flattenRow`
(schema-handler.js:35-46): `acc` is the `result` object being built.  A
nested plain object is flattened under `pref_key` and merged by
`Object.assign`; arrays are dropped; every other value is assigned under
its (prefixed) key. -/
def flattenRowAux : List (String × JValue) → String → Row → Row
  | [], _, acc => acc
  | (key, JValue.obj fields) :: rest, pref, acc =>
    let newKey := if pref == "" then key else pref ++ "_" ++ key
    let sub := flattenRowAux fields newKey []
    flattenRowAux rest pref (sub.foldl (fun r kv => objInsert r kv.1 kv.2) acc)
  | (_, JValue.arr _) :: rest, pref, acc => flattenRowAux rest pref acc
  | (key, v) :: rest, pref, acc =>
    let newKey := if pref == "" then key else pref ++ "_" ++ key
    flattenRowAux rest pref (objInsert acc newKey v)
termination_by l _ _ => sizeOf l
decreasing_by all_goals simp_wf <;> omega

/-- `SchemaHandler.flattenRow(row, prefix = '')`. -/
def flattenRow (row : List (String × JValue)) (pref : String := "") : Row :=
  flattenRowAux row pref []

/-- One output row of `SchemaHandler.extractNestedData`:
the object literal `{ ...item, ['_parent_' + parentKey]: parentVal }`. -/
def nestedRowOf (parentVal : JValue) (parentKey : String) (item : JValue) : Row :=
  objInsert (mkObj (spreadFields item)) ("_parent_" ++ parentKey) parentVal

/-- `SchemaHandler.extractNestedData(rows, parentKey, nestedKey)`
(schema-handler.js:19-33): for each row whose value at `nestedKey` is an
array, one nested row per array element. -/
def extractNestedData (rows : List JValue) (parentKey nestedKey : String) : List Row :=
  rows.foldl (fun acc row =>
    match jsPropV row nestedKey with
    | .arr items => acc ++ items.map (nestedRowOf (jsPropV row parentKey) parentKey)
    | _ => acc) []

/-- The test `/^\d{4}-\d{2}-\d{2}$/.test(s)`: an exact date-only match. -/
def matchesDateOnly (s : String) : Bool :=
  match s.toList with
  | [a, b, c, d, '-', e, f, '-', g, h] =>
    a.isDigit && b.isDigit && c.isDigit && d.isDigit &&
    e.isDigit && f.isDigit && g.isDigit && h.isDigit
  | _ => false

/-- The test `/^\d{4}-\d{2}-\d{2}[T ]\d{2}:\d{2}/.test(s)`: a date-time
start-of-string match (the regex is unanchored at the end). -/
def matchesDateTimeStart (s : String) : Bool :=
  match s.toList with
  | a :: b :: c :: d :: '-' :: e :: f :: '-' :: g :: h :: t :: i :: j :: ':' :: k :: l :: _ =>
    a.isDigit && b.isDigit && c.isDigit && d.isDigit &&
    e.isDigit && f.isDigit && g.isDigit && h.isDigit &&
    (t == 'T' || t == ' ') && i.isDigit && j.isDigit && k.isDigit && l.isDigit
  | _ => false

namespace MySQLAdapter

/-- `MySQLAdapter.inferColumnType(value)` (mysql-adapter.js).  The
`value instanceof Date` branch is unreachable for JSON-parsed values and
has no `JValue` counterpart; the trailing `return 'TEXT'` is likewise
unreachable for `JValue`. -/
def inferColumnType : JValue → String
  | .undefined => "TEXT"
  | .null => "TEXT"
  | .bool _ => "TINYINT(1)"
  | .num _ => "DECIMAL(20,6)"
  | .str s =>
    if matchesDateOnly s then "DATE"
    else if matchesDateTimeStart s then "DATETIME"
    else if s.length > 255 then "TEXT"
    else "VARCHAR(255)"
  | .arr _ => "JSON"
  | .obj _ => "JSON"

end MySQLAdapter

namespace PostgresAdapter

/-- `PostgresAdapter.inferColumnType(value)` (postgres-adapter.js). -/
def inferColumnType : JValue → String
  | .undefined => "TEXT"
  | .null => "TEXT"
  | .bool _ => "BOOLEAN"
  | .num _ => "NUMERIC(20,6)"
  | .str s =>
    if matchesDateOnly s then "DATE"
    else if matchesDateTimeStart s then "TIMESTAMP"
    else if s.length > 255 then "TEXT"
    else "VARCHAR(255)"
  | .arr _ => "JSONB"
  | .obj _ => "JSONB"

end PostgresAdapter

/-- A destination column: quoted identifier plus its SQL type text. -/
structure Column where
  name : String
  colType : String
deriving Repr, DecidableEq

/-- The destination schema: an association list from table name to its
column list, in creation order. -/
abbrev DB := List (String × List Column)

/-- Operations the Schema Synchronizer issues against the destination. -/
inductive DbOp where
  | tableExistsQuery (name : String)
  | createTableOp (name : String)
  | getColumnsQuery (name : String)
  | addColumnOp (table : String) (col : String)
deriving Repr, DecidableEq

/-- `getColumns`-style lookup of a table's columns; `[]` for a missing
table (both adapters return an empty list in that case). -/
def getCols : DB → String → List Column
  | [], _ => []
  | (m, cols) :: rest, n => if m = n then cols else getCols rest n

/-- `tableExists(name)`. -/
def tableExistsB (db : DB) (n : String) : Bool :=
  db.any (fun p => p.1 == n)

/-- `ALTER TABLE name ADD COLUMN c`: append a column to the named table. -/
def addColumn : DB → String → Column → DB
  | [], _, _ => []
  | (m, cols) :: rest, n, c =>
    if m = n then (m, cols ++ [c]) :: addColumn rest n c
    else (m, cols) :: addColumn rest n c

/-- The dialect-specific pieces of a database adapter: the type inferencer
and the two engine-owned column definitions used by `createTable`. -/
structure Adapter where
  inferColumnType : JValue → String
  idColumn : Column
  fetchedAtColumn : Column

/-- The MySQL adapter (mysql-adapter.js). -/
def mysqlAdapter : Adapter where
  inferColumnType := MySQLAdapter.inferColumnType
  idColumn := ⟨"_id", "BIGINT AUTO_INCREMENT PRIMARY KEY"⟩
  fetchedAtColumn := ⟨"_fetched_at", "DATETIME DEFAULT CURRENT_TIMESTAMP"⟩

/-- The Postgres adapter (postgres-adapter.js). -/
def postgresAdapter : Adapter where
  inferColumnType := PostgresAdapter.inferColumnType
  idColumn := ⟨"_id", "BIGSERIAL PRIMARY KEY"⟩
  fetchedAtColumn := ⟨"_fetched_at", "TIMESTAMP DEFAULT CURRENT_TIMESTAMP"⟩

/-- `createTable(tableName, sampleRow)` (both adapters): one column per key
of the sample row whose value is not a non-null object, surrogate `_id`
first and `_fetched_at` last; `CREATE TABLE IF NOT EXISTS` leaves an
existing table untouched. -/
def createTable (a : Adapter) (db : DB) (name : String) (row : Row) : DB :=
  let cols := (row.filter (fun kv => !(jsIsNonNullObject kv.2))).map
    (fun kv => Column.mk kv.1 (a.inferColumnType kv.2))
  let allCols := a.idColumn :: cols ++ [a.fetchedAtColumn]
  if tableExistsB db name then db else db ++ [(name, allCols)]

/-- The column loop of `addMissingColumns`: skip non-null-object values,
skip keys already present in the (pre-computed) case-folded name set, add
every other key with its inferred type. -/
def addColumnsLoop (infer : JValue → String) (name : String)
    (existingNames : List String) :
    DB → List DbOp → List (String × JValue) → DB × List DbOp
  | db, ops, [] => (db, ops)
  | db, ops, kv :: rest =>
    if jsIsNonNullObject kv.2 then addColumnsLoop infer name existingNames db ops rest
    else if kv.1.toLower ∈ existingNames then
      addColumnsLoop infer name existingNames db ops rest
    else
      addColumnsLoop infer name existingNames
        (addColumn db name ⟨kv.1, infer kv.2⟩)
        (ops ++ [DbOp.addColumnOp name kv.1]) rest

/-- `addMissingColumns(tableName, sampleRow)` (mysql-adapter.js:333-348,
postgres-adapter.js:107-122): query the existing columns once, fold their
lower-cased names into a set, then add each missing, kept key. -/
def addMissingColumns (infer : JValue → String) (db : DB) (name : String)
    (row : Row) : DB × List DbOp :=
  let existingNames := (getCols db name).map (fun c => c.name.toLower)
  addColumnsLoop infer name existingNames db [DbOp.getColumnsQuery name] row

/-- `SchemaHandler.ensureTable(tableName, sampleRow)`
(schema-handler.js:8-17).  `none` models a null/undefined `sampleRow`
(`if (!sampleRow) return;`); an empty object is truthy in JavaScript, so
`some []` proceeds to the existence check. -/
def ensureTable (a : Adapter) (db : DB) (name : String) (row : Option Row) :
    DB × List DbOp :=
  match row with
  | none => (db, [])
  | some r =>
    if tableExistsB db name then
      let res := addMissingColumns a.inferColumnType db name r
      (res.1, DbOp.tableExistsQuery name :: res.2)
    else
      (createTable a db name r, [DbOp.tableExistsQuery name, DbOp.createTableOp name])

/-- A sequence of `ensureTable` calls against the same table, threading the
destination schema. -/
def runEnsures (a : Adapter) (db : DB) (name : String) (rows : List (Option Row)) : DB :=
  rows.foldl (fun d r => (ensureTable a d name r).1) db

/-- Case-insensitive presence of a column named `k` (the adapters compare
lower-cased names). -/
def hasColCI (cols : List Column) (k : String) : Prop :=
  ∃ c ∈ cols, c.name.toLower = k.toLower

instance (cols : List Column) (k : String) : Decidable (hasColCI cols k) := by
  unfold hasColCI; infer_instance

/-- The column list of `insertBatch`: keys of the first row whose first-row
value is not a non-null object. -/
def insertColumns (first : Row) : List String :=
  ((first.filter (fun kv => !(jsIsNonNullObject kv.2))).map (fun kv => kv.1))

/-- The per-cell value of `insertBatch`: `row[col]`, with `undefined`
(explicit or from an absent key) mapped to SQL NULL. -/
def cellValue (row : Row) (col : String) : JValue :=
  match rowGet row col with
  | none => .null
  | some .undefined => .null
  | some v => v

/-- `insertBatch(tableName, rows)` (both adapters): `none` models the
empty-input no-op; otherwise the emitted column list and the flattened
parameter list (`rows.flatMap(row => columns.map(...))`). -/
def insertBatch (rows : List Row) : Option (List String × List JValue) :=
  match rows with
  | [] => none
  | first :: _ =>
    let columns := insertColumns first
    some (columns, (rows.map (fun row => columns.map (cellValue row))).flatten)

/-- JavaScript `parseInt(s, 10)` on a string: skip leading whitespace, read
an optional sign and then decimal digits; `none` is NaN (no digit found). -/
def parseIntStr (s : String) : Option Int :=
  let cs := s.toList.dropWhile (fun c => c == ' ' || c == '\t' || c == '\n' || c == '\r')
  let signAndRest : Int × List Char :=
    match cs with
    | '-' :: rest => (-1, rest)
    | '+' :: rest => (1, rest)
    | _ => (1, cs)
  let digits := signAndRest.2.takeWhile Char.isDigit
  if digits.isEmpty then none
  else
    some (signAndRest.1 *
      ((digits.foldl (fun acc c => acc * 10 + (c.toNat - '0'.toNat)) 0 : Nat) : Int))

/-- JavaScript `parseInt(v, 10)`; `none` is NaN.  Numbers are truncated
toward zero (via their decimal string); booleans, null, undefined and plain
objects parse to NaN.  (Arrays first stringify in JavaScript; the fetcher
only ever meets numbers and strings here, so they are modelled as NaN.) -/
def jsParseInt : JValue → Option Int
  | .num q => some (if q < 0 then q.ceil else q.floor)
  | .str s => parseIntStr s
  | _ => none

/-- `parseInt(response.current_page, 10) || pageNumber` (fetcher.js:311):
NaN and 0 both fall back to the loop counter. -/
def coerceCurrentPage (resp : JValue) (pageNumber : Nat) : Int :=
  match jsParseInt (jsPropV resp "current_page") with
  | none => (pageNumber : Int)
  | some n => if n = 0 then (pageNumber : Int) else n

/-- `parseInt(response.count, 10) || 0` (fetcher.js:312). -/
def coerceCount (resp : JValue) : Int :=
  match jsParseInt (jsPropV resp "count") with
  | none => 0
  | some n => n

/-- The wrapped-shape continuation decision (fetcher.js:309-322): with a
usable positive count, continue while `currentPage < ceil(count/pageSize)`;
otherwise continue until an empty page. -/
def decideMore (resp : JValue) (pageData : List JValue) (pageNumber : Nat) : Bool :=
  let currentPage := coerceCurrentPage resp pageNumber
  let totalCount := coerceCount resp
  let pageSize := pageData.length
  if 0 < totalCount ∧ 0 < pageSize then
    let totalPages : Int := ⌈(totalCount : Rat) / (pageSize : Rat)⌉
    decide (currentPage < totalPages) && decide (0 < pageSize)
  else decide (0 < pageData.length)

/-- Response-shape classification (fetcher.js:277-289): a direct array is a
terminal page; an object whose `data` property is not `undefined` is the
wrapped paginated shape; anything else is a terminal single-record page.
Returns `(data, isPaginated, hasMore-after-classification)` with `hasMore`
having been `true` on loop entry. -/
def classifyResp : JValue → JValue × Bool × Bool
  | .arr l => (.arr l, false, false)
  | .obj fields =>
    match jsProp fields "data" with
    | .undefined => (.obj fields, false, false)
    | v => (v, true, true)
  | v => (v, false, false)

/-- The post-page update of `hasMore` (fetcher.js:309-322): recomputed by
`decideMore` for the wrapped shape, otherwise left as classification set
it. -/
def nextHasMore (resp : JValue) (pageData : List JValue) (pageNumber : Nat)
    (isPaginated hasMore0 : Bool) : Bool :=
  if isPaginated then decideMore resp pageData pageNumber else hasMore0

/-- The emptiness test `!data || (Array.isArray(data) && data.length === 0)`
(fetcher.js:291). -/
def dataEmptyCheck (data : JValue) : Bool :=
  jsFalsy data || (match data with | .arr l => l.isEmpty | _ => false)

/-- `Array.isArray(data) ? data : [data]` (fetcher.js:296). -/
def toPageData : JValue → List JValue
  | .arr l => l
  | v => [v]

/-- Observable outcome of one `fetchPaginated` run: the per-page `pageData`
lists handed to the page callback in order, the number of requests issued,
the running `totalFetched`, and whether the non-JSON early return fired. -/
structure FetchResult where
  pages : List (List JValue)
  requests : Nat
  totalFetched : Nat
  aborted : Bool

/-- The `while (hasMore)` loop of `Fetcher.fetchPaginated`
(fetcher.js:260-335), entered with `hasMore = true`.  `server k` is the
transport's body for `page_number = k`; `none` is the non-JSON response
that `ApiClient.get` signals as null (api-client.js:81-85), and a falsy
JSON body trips the same `if (!response)` early return.  The periodic
`ensureConnected` probe touches no fetch-visible state and is not
modelled. -/
def fetchLoop (server : Nat → Option JValue) (pageNumber : Nat)
    (pages : List (List JValue)) (reqs totalF : Nat) : FetchResult :=
  match server pageNumber with
  | none => ⟨pages, reqs + 1, totalF, true⟩
  | some resp =>
    if jsFalsy resp then ⟨pages, reqs + 1, totalF, true⟩
    else
      let c := classifyResp resp
      if dataEmptyCheck c.1 then ⟨pages, reqs + 1, totalF, false⟩
      else
        let pageData := toPageData c.1
        let pages' := pages ++ [pageData]
        let totalF' := totalF + pageData.length
        let hasMore' := nextHasMore resp pageData pageNumber c.2.1 c.2.2
        if h : 1000 < pageNumber + 1 then ⟨pages', reqs + 1, totalF', false⟩
        else if hasMore' then fetchLoop server (pageNumber + 1) pages' (reqs + 1) totalF'
        else ⟨pages', reqs + 1, totalF', false⟩
termination_by 1001 - pageNumber
decreasing_by omega

/-- `Fetcher.fetchPaginated(endpoint, params, tableName, onPageFetched)`:
the loop starts at `pageNumber = 1` with `hasMore = true` and nothing
accumulated. -/
def fetchPaginated (server : Nat → Option JValue) : FetchResult :=
  fetchLoop server 1 [] 0 0

/-- The batch-mode return value (`allData`, which is the concatenation of
the page payloads), or `[]` when the non-JSON early return fired. -/
def batchReturn (r : FetchResult) : List JValue :=
  if r.aborted then [] else r.pages.flatten

/-- The key list of a row, in order. -/
def keysOf (r : Row) : List String :=
  r.map Prod.fst

/-- One parent row's contribution to `extractNestedData`: one nested row
per element when the value at `nestedKey` is an array, nothing otherwise. -/
def nestedRowsOfRow (parentKey nestedKey : String) (row : JValue) : List Row :=
  match jsPropV row nestedKey with
  | .arr items => items.map (nestedRowOf (jsPropV row parentKey) parentKey)
  | _ => []

/-- One parent row's contribution to the nested-row count. -/
def nestedCountOfRow (nestedKey : String) (row : JValue) : Nat :=
  match jsPropV row nestedKey with
  | .arr items => items.length
  | _ => 0

/-- C6: `InferType` is total and deterministic, and follows the claimed
case analysis in both dialects: null/undefined map to the widest textual
type, booleans to the dialect's boolean-equivalent column (`TINYINT(1)` on
MySQL, `BOOLEAN` on Postgres), every number (integer or fractional) to the
single fixed-precision decimal type, an exact `YYYY-MM-DD` string to the
date type, a `YYYY-MM-DD[T ]HH:MM`-prefixed string to the date-time type,
other strings longer than 255 characters to unbounded text, remaining
strings to `VARCHAR(255)`, and non-null objects (arrays included) to the
JSON fallback. -/
theorem c6_infer_type_total_deterministic :
    (MySQLAdapter.inferColumnType .null = "TEXT" ∧
     MySQLAdapter.inferColumnType .undefined = "TEXT" ∧
     PostgresAdapter.inferColumnType .null = "TEXT" ∧
     PostgresAdapter.inferColumnType .undefined = "TEXT") ∧
    (∀ b, MySQLAdapter.inferColumnType (.bool b) = "TINYINT(1)" ∧
          PostgresAdapter.inferColumnType (.bool b) = "BOOLEAN") ∧
    (∀ q, MySQLAdapter.inferColumnType (.num q) = "DECIMAL(20,6)" ∧
          PostgresAdapter.inferColumnType (.num q) = "NUMERIC(20,6)") ∧
    (∀ s, matchesDateOnly s = true →
        MySQLAdapter.inferColumnType (.str s) = "DATE" ∧
        PostgresAdapter.inferColumnType (.str s) = "DATE") ∧
    (∀ s, matchesDateOnly s = false → matchesDateTimeStart s = true →
        MySQLAdapter.inferColumnType (.str s) = "DATETIME" ∧
        PostgresAdapter.inferColumnType (.str s) = "TIMESTAMP") ∧
    (∀ s, matchesDateOnly s = false → matchesDateTimeStart s = false →
        255 < s.length →
        MySQLAdapter.inferColumnType (.str s) = "TEXT" ∧
        PostgresAdapter.inferColumnType (.str s) = "TEXT") ∧
    (∀ s, matchesDateOnly s = false → matchesDateTimeStart s = false →
        s.length ≤ 255 →
        MySQLAdapter.inferColumnType (.str s) = "VARCHAR(255)" ∧
        PostgresAdapter.inferColumnType (.str s) = "VARCHAR(255)") ∧
    (∀ v, jsIsNonNullObject v = true →
        MySQLAdapter.inferColumnType v = "JSON" ∧
        PostgresAdapter.inferColumnType v = "JSONB") ∧
    (∀ v w : JValue, v = w →
        MySQLAdapter.inferColumnType v = MySQLAdapter.inferColumnType w ∧
        PostgresAdapter.inferColumnType v = PostgresAdapter.inferColumnType w) := by
  refine ⟨⟨rfl, rfl, rfl, rfl⟩, fun b => ⟨rfl, rfl⟩, fun q => ⟨rfl, rfl⟩,
    ?_, ?_, ?_, ?_, ?_, ?_⟩
  · intro s h
    simp [MySQLAdapter.inferColumnType, PostgresAdapter.inferColumnType, h]
  · intro s h1 h2
    simp [MySQLAdapter.inferColumnType, PostgresAdapter.inferColumnType, h1, h2]
  · intro s h1 h2 h3
    simp [MySQLAdapter.inferColumnType, PostgresAdapter.inferColumnType, h1, h2, h3]
  · intro s h1 h2 h3
    simp [MySQLAdapter.inferColumnType, PostgresAdapter.inferColumnType, h1, h2,
      Nat.not_lt.mpr h3]
  · intro v hv
    cases v <;> simp [jsIsNonNullObject] at hv <;>
      simp [MySQLAdapter.inferColumnType, PostgresAdapter.inferColumnType]
  · intro v w h
    subst h
    exact ⟨rfl, rfl⟩

set_option maxRecDepth 8000 in
/-- Witness for C6 at concrete inputs: a date string, a timestamp string,
a short string and a long string, through both adapters. -/
theorem c6_infer_type_total_deterministic_witness :
    MySQLAdapter.inferColumnType (.str "2024-01-15") = "DATE" ∧
    PostgresAdapter.inferColumnType (.str "2024-01-15 12:30:00") = "TIMESTAMP" ∧
    MySQLAdapter.inferColumnType (.str "hello") = "VARCHAR(255)" ∧
    PostgresAdapter.inferColumnType (.str (String.mk (List.replicate 256 'a'))) = "TEXT" := by
  refine ⟨(c6_infer_type_total_deterministic.2.2.2.1 "2024-01-15" (by decide)).1,
    (c6_infer_type_total_deterministic.2.2.2.2.1 "2024-01-15 12:30:00" (by decide) (by decide)).2,
    (c6_infer_type_total_deterministic.2.2.2.2.2.2.1 "hello" (by decide) (by decide) (by decide)).1,
    (c6_infer_type_total_deterministic.2.2.2.2.2.1 (String.mk (List.replicate 256 'a'))
      (by decide) (by decide) (by decide)).2⟩

/-- C3 counterexample: with an empty destination and an empty-but-present
representative row (`some []`, the truthy `{}` of JavaScript), `ensureTable`
is not a no-op — it issues the table-existence query and creates the table
(holding only the engine-owned `_id` and `_fetched_at` columns). -/
theorem c3_empty_row_counterexample :
    (ensureTable mysqlAdapter [] "jasper_t" (some [])).2 ≠ [] ∧
    (ensureTable mysqlAdapter [] "jasper_t" (some [])).1 ≠ [] := by
  decide

/-- C3 (amended): `ensureTable` is a no-op exactly when the representative
row is absent (null/undefined): the destination is untouched and no
operation is issued.  An empty-but-present row instead proceeds to the
existence check (and creates or alters the table). -/
theorem c3_ensure_table_noop_on_absent (a : Adapter) (db : DB) (name : String) :
    ensureTable a db name none = (db, []) :=
  rfl

/-- C7: the column list of a non-empty `insertBatch` is a function of the
batch's first row only (its keys minus the non-null-object-valued ones): a
key absent from the first row is never among the inserted columns, and a
key whose value is `undefined` (or absent) in some row is inserted as SQL
NULL for that row; the emitted values are exactly the per-row evaluation of
the first row's columns. -/
theorem c7_insert_batch_first_row (first : Row) (rest rest' : List Row) :
    (insertBatch (first :: rest)).map Prod.fst =
      (insertBatch (first :: rest')).map Prod.fst ∧
    (∀ k ∈ insertColumns first, k ∈ keysOf first) ∧
    (∀ row : Row, ∀ c ∈ insertColumns first,
        rowGet row c = none ∨ rowGet row c = some .undefined →
        cellValue row c = .null) ∧
    insertBatch (first :: rest) =
      some (insertColumns first,
        ((first :: rest).map (fun row => (insertColumns first).map (cellValue row))).flatten) := by
  refine ⟨rfl, ?_, ?_, rfl⟩
  · intro k hk
    unfold insertColumns at hk
    simp only [List.mem_map, List.mem_filter] at hk
    obtain ⟨kv, ⟨hmem, _⟩, hk⟩ := hk
    exact hk ▸ List.mem_map_of_mem Prod.fst hmem
  · intro row c _ h
    rcases h with h | h <;> simp [cellValue, h]

/-- Witness for C7: a concrete two-row batch where the second row's key is
not inserted and the first row's key reads as NULL in the second row. -/
theorem c7_insert_batch_first_row_witness :
    (insertBatch [[("a", JValue.num 1)], [("b", JValue.num 2)]]).map Prod.fst =
      (insertBatch [[("a", JValue.num 1)]]).map Prod.fst ∧
    cellValue [("b", JValue.num 2)] "a" = JValue.null := by
  refine ⟨(c7_insert_batch_first_row [("a", JValue.num 1)] [[("b", JValue.num 2)]] []).1, ?_⟩
  exact (c7_insert_batch_first_row [("a", JValue.num 1)] [[("b", JValue.num 2)]] []).2.2.1
    [("b", JValue.num 2)] "a" (by simp [insertColumns, jsIsNonNullObject])
    (Or.inl (by simp [rowGet]))

theorem rowGet_objInsert_self (r : Row) (k : String) (v : JValue) :
    rowGet (objInsert r k v) k = some v := by
  induction r with
  | nil => simp [objInsert, rowGet]
  | cons p rest ih =>
    by_cases hp : p.1 = k
    · simp [objInsert, hp, rowGet]
    · simp only [objInsert, beq_iff_eq, hp, if_false]
      simpa [rowGet, List.find?_cons, hp] using ih

theorem objInsert_of_not_mem (r : Row) (k : String) (v : JValue)
    (h : ∀ p ∈ r, p.1 ≠ k) : objInsert r k v = r ++ [(k, v)] := by
  induction r with
  | nil => rfl
  | cons p rest ih =>
    have hp : p.1 ≠ k := h p (by simp)
    simp only [objInsert, beq_iff_eq, hp, if_false, List.cons_append, List.cons.injEq,
      true_and]
    exact ih (fun q hq => h q (by simp [hq]))

theorem mem_objInsert (r : Row) (k : String) (v : JValue) (q : String × JValue)
    (h : q ∈ objInsert r k v) : q ∈ r ∨ q = (k, v) := by
  induction r with
  | nil => simpa [objInsert] using h
  | cons p rest ih =>
    by_cases hp : p.1 = k
    · simp only [objInsert, beq_iff_eq, hp, if_true, List.mem_cons] at h
      rcases h with h | h
      · exact Or.inr h
      · exact Or.inl (List.mem_cons_of_mem p h)
    · simp only [objInsert, beq_iff_eq, hp, if_false, List.mem_cons] at h
      rcases h with h | h
      · exact Or.inl (by rw [h]; exact List.mem_cons_self p rest)
      · rcases ih h with h' | h'
        · exact Or.inl (List.mem_cons_of_mem p h')
        · exact Or.inr h'

theorem keysOf_objInsert_mem (r : Row) (k : String) (v : JValue) (x : String)
    (h : x ∈ keysOf (objInsert r k v)) : x ∈ keysOf r ∨ x = k := by
  unfold keysOf at h
  obtain ⟨q, hq, hx⟩ := List.mem_map.mp h
  rcases mem_objInsert r k v q hq with h' | h'
  · exact Or.inl (hx ▸ List.mem_map_of_mem Prod.fst h')
  · subst h'
    exact Or.inr hx.symm

theorem keysOf_objInsert_nodup (r : Row) (k : String) (v : JValue)
    (h : (keysOf r).Nodup) : (keysOf (objInsert r k v)).Nodup := by
  induction r with
  | nil => simp [objInsert, keysOf]
  | cons p rest ih =>
    simp only [keysOf, List.map_cons, List.nodup_cons] at h
    by_cases hp : p.1 = k
    · subst hp
      simp only [objInsert, beq_self_eq_true, if_true, keysOf, List.map_cons,
        List.nodup_cons]
      exact ⟨h.1, h.2⟩
    · have ih' := ih h.2
      simp only [objInsert, beq_iff_eq, hp, if_false, keysOf, List.map_cons,
        List.nodup_cons]
      refine ⟨fun hmem => ?_, ih'⟩
      rcases keysOf_objInsert_mem rest k v p.1 hmem with h' | h'
      · exact h.1 h'
      · exact hp h'

theorem foldl_objInsert_append (l : List (String × JValue)) (acc : Row)
    (hnd : (keysOf l).Nodup) (hdisj : ∀ p ∈ l, ∀ q ∈ acc, p.1 ≠ q.1) :
    l.foldl (fun a kv => objInsert a kv.1 kv.2) acc = acc ++ l := by
  induction l generalizing acc with
  | nil => simp
  | cons kv rest ih =>
    simp only [keysOf, List.map_cons, List.nodup_cons] at hnd
    have hins : objInsert acc kv.1 kv.2 = acc ++ [kv] := by
      have := objInsert_of_not_mem acc kv.1 kv.2
        (fun q hq => (hdisj kv (by simp) q hq).symm)
      simpa using this
    simp only [List.foldl_cons, hins]
    rw [ih (acc ++ [kv]) hnd.2]
    · simp
    · intro p hp q hq
      rcases List.mem_append.mp hq with hq | hq
      · exact hdisj p (by simp [hp]) q hq
      · have : q = kv := by simpa using hq
        subst this
        intro hcontra
        exact hnd.1 (hcontra ▸ List.mem_map_of_mem Prod.fst hp)

theorem mkObj_of_nodup (l : List (String × JValue)) (h : (keysOf l).Nodup) :
    mkObj l = l := by
  unfold mkObj
  simpa using foldl_objInsert_append l [] h (by simp)

/-- C5: nested extraction emits, in order, exactly one nested row per
element of each parent row's array at `nestedKey` (so `sum(len(arr_i))`
rows in total); each emitted row is the element's own fields plus a
`_parent_<parentKey>` column holding that parent's value at `parentKey`;
parents lacking `nestedKey`, or holding a non-array there, contribute
nothing. -/
theorem c5_extract_nested_complete (rows : List JValue) (pk nk : String) :
    extractNestedData rows pk nk = (rows.map (nestedRowsOfRow pk nk)).flatten ∧
    (extractNestedData rows pk nk).length = (rows.map (nestedCountOfRow nk)).sum ∧
    (∀ row ∈ rows, ∀ items, jsPropV row nk = .arr items → ∀ item ∈ items,
        rowGet (nestedRowOf (jsPropV row pk) pk item) ("_parent_" ++ pk) =
          some (jsPropV row pk)) ∧
    (∀ (fields : Row) (pv : JValue), (keysOf fields).Nodup →
        (∀ p ∈ fields, p.1 ≠ "_parent_" ++ pk) →
        nestedRowOf pv pk (.obj fields) = fields ++ [("_parent_" ++ pk, pv)]) := by
  have hfold : ∀ (rs : List JValue) (acc : List Row),
      rs.foldl (fun acc row =>
        match jsPropV row nk with
        | .arr items => acc ++ items.map (nestedRowOf (jsPropV row pk) pk)
        | _ => acc) acc = acc ++ (rs.map (nestedRowsOfRow pk nk)).flatten := by
    intro rs
    induction rs with
    | nil => simp
    | cons row rest ih =>
      intro acc
      simp only [List.foldl_cons, List.map_cons, List.flatten_cons]
      cases hj : jsPropV row nk <;>
        simp [nestedRowsOfRow, hj, ih, List.append_assoc]
  have h1 : extractNestedData rows pk nk = (rows.map (nestedRowsOfRow pk nk)).flatten := by
    unfold extractNestedData
    simpa using hfold rows []
  refine ⟨h1, ?_, ?_, ?_⟩
  · rw [h1, List.length_flatten, List.map_map]
    congr 1
    apply List.map_congr_left
    intro row _
    cases hj : jsPropV row nk <;> simp [nestedRowsOfRow, nestedCountOfRow, hj]
  · intro row _ items _ item _
    exact rowGet_objInsert_self _ _ _
  · intro fields pv hnd hne
    unfold nestedRowOf
    rw [show spreadFields (.obj fields) = fields from rfl, mkObj_of_nodup fields hnd]
    exact objInsert_of_not_mem fields _ pv hne

/-- Witness for C5: the spec's warehouse scenario — one parent with a
two-element `locations` array yields two nested rows, each carrying
`_parent_warehouse_code = "W1"`. -/
theorem c5_extract_nested_complete_witness :
    (extractNestedData
        [JValue.obj [("warehouse_code", JValue.str "W1"),
                     ("locations", JValue.arr [JValue.obj [("zone", JValue.str "A")],
                                               JValue.obj [("zone", JValue.str "B")]])]]
        "warehouse_code" "locations").length = 2 ∧
    rowGet (nestedRowOf (JValue.str "W1") "warehouse_code"
        (JValue.obj [("zone", JValue.str "A")])) "_parent_warehouse_code" =
      some (JValue.str "W1") ∧
    nestedRowOf (JValue.str "W1") "warehouse_code" (JValue.obj [("zone", JValue.str "A")]) =
      [("zone", JValue.str "A"), ("_parent_warehouse_code", JValue.str "W1")] := by
  have h := c5_extract_nested_complete
    [JValue.obj [("warehouse_code", JValue.str "W1"),
                 ("locations", JValue.arr [JValue.obj [("zone", JValue.str "A")],
                                           JValue.obj [("zone", JValue.str "B")]])]]
    "warehouse_code" "locations"
  refine ⟨h.2.1.trans (by simp [nestedCountOfRow, jsPropV, jsProp, rowGet]), ?_, ?_⟩
  · have := h.2.2.1
      (JValue.obj [("warehouse_code", JValue.str "W1"),
                   ("locations", JValue.arr [JValue.obj [("zone", JValue.str "A")],
                                             JValue.obj [("zone", JValue.str "B")]])])
      (by simp)
      [JValue.obj [("zone", JValue.str "A")], JValue.obj [("zone", JValue.str "B")]]
      (by simp [jsPropV, jsProp, rowGet])
      (JValue.obj [("zone", JValue.str "A")]) (by simp)
    simpa [jsPropV, jsProp, rowGet] using this
  · have := h.2.2.2 [("zone", JValue.str "A")] (JValue.str "W1")
      (by simp [keysOf]) (by simp)
    simpa using this

theorem flattenRowAux_no_obj (l : List (String × JValue)) (acc : Row)
    (h : ∀ kv ∈ l, isObjV kv.2 = false) :
    flattenRowAux l "" acc =
      l.foldl (fun a kv => if isArrV kv.2 then a else objInsert a kv.1 kv.2) acc := by
  induction l generalizing acc with
  | nil => simp [flattenRowAux]
  | cons kv rest ih =>
    obtain ⟨key, v⟩ := kv
    have hrest : ∀ kv ∈ rest, isObjV kv.2 = false :=
      fun kv hkv => h kv (List.mem_cons_of_mem _ hkv)
    cases v with
    | obj fields => exact absurd (h (key, .obj fields) (List.mem_cons_self _ _)) (by simp [isObjV])
    | arr elems => simpa [flattenRowAux, isArrV] using ih acc hrest
    | undefined => simpa [flattenRowAux, isArrV] using ih (objInsert acc key .undefined) hrest
    | null => simpa [flattenRowAux, isArrV] using ih (objInsert acc key .null) hrest
    | bool b => simpa [flattenRowAux, isArrV] using ih (objInsert acc key (.bool b)) hrest
    | num q => simpa [flattenRowAux, isArrV] using ih (objInsert acc key (.num q)) hrest
    | str s => simpa [flattenRowAux, isArrV] using ih (objInsert acc key (.str s)) hrest

theorem foldl_skip_arr_eq_filter (l : List (String × JValue)) (acc : Row) :
    l.foldl (fun a kv => if isArrV kv.2 then a else objInsert a kv.1 kv.2) acc =
      (l.filter (fun kv => !(isArrV kv.2))).foldl
        (fun a kv => objInsert a kv.1 kv.2) acc := by
  induction l generalizing acc with
  | nil => rfl
  | cons kv rest ih =>
    cases ha : isArrV kv.2 <;> simp [List.filter_cons, ha, ih]

theorem foldl_objInsert_keys_nodup (l : List (String × JValue)) (acc : Row)
    (h : (keysOf acc).Nodup) :
    (keysOf (l.foldl (fun a kv => objInsert a kv.1 kv.2) acc)).Nodup := by
  induction l generalizing acc with
  | nil => exact h
  | cons kv rest ih =>
    exact ih _ (keysOf_objInsert_nodup acc kv.1 kv.2 h)

theorem mem_foldl_objInsert (l : List (String × JValue)) (acc : Row)
    (q : String × JValue)
    (h : q ∈ l.foldl (fun a kv => objInsert a kv.1 kv.2) acc) :
    q ∈ acc ∨ q ∈ l := by
  induction l generalizing acc with
  | nil => exact Or.inl h
  | cons kv rest ih =>
    rcases ih (objInsert acc kv.1 kv.2) h with h' | h'
    · rcases mem_objInsert acc kv.1 kv.2 q h' with h'' | h''
      · exact Or.inl h''
      · exact Or.inr (by rw [h'']; exact List.mem_cons_self _ _)
    · exact Or.inr (List.mem_cons_of_mem _ h')

/-- C10: on a record with no nested objects, flattening drops the
array-valued fields, keeps every other field under its own key, and is
idempotent: `Flatten(Flatten(x)) = Flatten(x)`. -/
theorem c10_flatten_idempotent (row : Row)
    (h : ∀ kv ∈ row, isObjV kv.2 = false) :
    flattenRow (flattenRow row "") "" = flattenRow row "" ∧
    ((keysOf row).Nodup →
      flattenRow row "" = row.filter (fun kv => !(isArrV kv.2))) := by
  have hf : flattenRow row "" =
      (row.filter (fun kv => !(isArrV kv.2))).foldl
        (fun a kv => objInsert a kv.1 kv.2) [] := by
    unfold flattenRow
    rw [flattenRowAux_no_obj row [] h, foldl_skip_arr_eq_filter]
  have hmem : ∀ kv ∈ flattenRow row "", isObjV kv.2 = false ∧ isArrV kv.2 = false := by
    intro kv hkv
    rw [hf] at hkv
    rcases mem_foldl_objInsert _ [] kv hkv with h' | h'
    · exact absurd h' (List.not_mem_nil kv)
    · have h1 := List.mem_of_mem_filter h'
      have h2 := List.of_mem_filter h'
      exact ⟨h kv h1, by simpa using h2⟩
  have hnd : (keysOf (flattenRow row "")).Nodup := by
    rw [hf]
    exact foldl_objInsert_keys_nodup _ [] (by simp [keysOf])
  constructor
  · calc flattenRow (flattenRow row "") ""
        = (flattenRow row "").foldl
            (fun a kv => if isArrV kv.2 then a else objInsert a kv.1 kv.2) [] :=
          flattenRowAux_no_obj (flattenRow row "") []
            (fun kv hkv => (hmem kv hkv).1)
      _ = ((flattenRow row "").filter (fun kv => !(isArrV kv.2))).foldl
            (fun a kv => objInsert a kv.1 kv.2) [] :=
          foldl_skip_arr_eq_filter _ []
      _ = (flattenRow row "").foldl (fun a kv => objInsert a kv.1 kv.2) [] := by
          rw [List.filter_eq_self.mpr (fun kv hkv => by simpa using (hmem kv hkv).2)]
      _ = [] ++ flattenRow row "" :=
          foldl_objInsert_append (flattenRow row "") [] hnd (by simp)
      _ = flattenRow row "" := by simp
  · intro hndrow
    rw [hf]
    have hndf : (keysOf (row.filter (fun kv => !(isArrV kv.2)))).Nodup := by
      unfold keysOf
      exact ((List.filter_sublist row).map Prod.fst).nodup hndrow
    simpa using foldl_objInsert_append _ [] hndf (by simp)

/-- Witness for C10: a concrete already-flat record with a scalar, an
array (dropped), and a null field. -/
theorem c10_flatten_idempotent_witness :
    flattenRow (flattenRow
        [("a", JValue.num 1), ("b", JValue.arr [JValue.num 2]), ("c", JValue.null)] "") "" =
      flattenRow
        [("a", JValue.num 1), ("b", JValue.arr [JValue.num 2]), ("c", JValue.null)] "" ∧
    flattenRow
        [("a", JValue.num 1), ("b", JValue.arr [JValue.num 2]), ("c", JValue.null)] "" =
      [("a", JValue.num 1), ("c", JValue.null)] := by
  have h := c10_flatten_idempotent
    [("a", JValue.num 1), ("b", JValue.arr [JValue.num 2]), ("c", JValue.null)]
    (by decide)
  refine ⟨h.1, (h.2 (by decide)).trans ?_⟩
  rfl

theorem mem_getCols_addColumn (db : DB) (m n : String) (c col : Column)
    (h : c ∈ getCols db m) : c ∈ getCols (addColumn db n col) m := by
  induction db with
  | nil => exact absurd h (List.not_mem_nil c)
  | cons t rest ih =>
    obtain ⟨tn, tcols⟩ := t
    by_cases htn : tn = n
    · subst htn
      by_cases htm : tn = m
      · subst htm
        simp only [getCols, if_pos rfl] at h
        simp only [addColumn, if_pos rfl, getCols]
        exact List.mem_append_left _ h
      · simp only [getCols, htm, if_false] at h
        simp only [addColumn, if_pos rfl, getCols, htm, if_false]
        exact ih h
    · by_cases htm : tn = m
      · subst htm
        simp only [getCols, if_pos rfl] at h
        simp only [addColumn, htn, if_false, getCols, if_pos rfl]
        exact h
      · simp only [getCols, htm, if_false] at h
        simp only [addColumn, htn, if_false, getCols, htm, if_false]
        exact ih h

theorem getCols_addColumn_self (db : DB) (n : String) (col : Column)
    (h : tableExistsB db n = true) :
    getCols (addColumn db n col) n = getCols db n ++ [col] := by
  induction db with
  | nil => simp [tableExistsB] at h
  | cons t rest ih =>
    obtain ⟨tn, tcols⟩ := t
    by_cases htn : tn = n
    · subst htn
      simp [addColumn, getCols]
    · have h' : tableExistsB rest n = true := by
        simpa [tableExistsB, htn] using h
      simp [addColumn, getCols, htn, ih h']

theorem tableExistsB_addColumn (db : DB) (n m : String) (col : Column) :
    tableExistsB (addColumn db n col) m = tableExistsB db m := by
  induction db with
  | nil => rfl
  | cons t rest ih =>
    obtain ⟨tn, tcols⟩ := t
    by_cases htn : tn = n <;>
      simp [addColumn, htn, tableExistsB, List.any_cons] <;>
      simp [tableExistsB] at ih <;> rw [ih]

theorem getCols_append_single_of_mem (db : DB) (m : String) (c : Column)
    (t : String × List Column) (h : c ∈ getCols db m) :
    c ∈ getCols (db ++ [t]) m := by
  induction db with
  | nil => exact absurd h (List.not_mem_nil c)
  | cons p rest ih =>
    obtain ⟨pn, pcols⟩ := p
    by_cases hpm : pn = m
    · subst hpm
      simpa [getCols] using h
    · simp only [getCols, hpm, if_false] at h
      simpa [getCols, hpm] using ih h

theorem getCols_append_single_new (db : DB) (n : String) (cols : List Column)
    (h : tableExistsB db n = false) :
    getCols (db ++ [(n, cols)]) n = cols := by
  induction db with
  | nil => simp [getCols]
  | cons p rest ih =>
    obtain ⟨pn, pcols⟩ := p
    simp only [tableExistsB, List.any_cons, Bool.or_eq_false_iff, beq_eq_false_iff_ne,
      ne_eq] at h
    simp only [List.cons_append, getCols, h.1, if_false]
    exact ih (by simpa [tableExistsB] using h.2)

theorem addColumnsLoop_mono (infer : JValue → String) (n : String)
    (ex : List String) (l : List (String × JValue)) (db : DB) (ops : List DbOp)
    (m : String) (c : Column) (h : c ∈ getCols db m) :
    c ∈ getCols (addColumnsLoop infer n ex db ops l).1 m := by
  induction l generalizing db ops with
  | nil => exact h
  | cons kv rest ih =>
    by_cases h1 : jsIsNonNullObject kv.2 = true
    · simpa [addColumnsLoop, h1] using ih db ops h
    · by_cases h2 : kv.1.toLower ∈ ex
      · simpa [addColumnsLoop, h1, h2] using ih db ops h
      · simp only [addColumnsLoop, h1, Bool.false_eq_true, if_false, h2]
        exact ih _ _ (mem_getCols_addColumn db m n c _ h)

theorem addColumnsLoop_tableExistsB (infer : JValue → String) (n : String)
    (ex : List String) (l : List (String × JValue)) (db : DB) (ops : List DbOp)
    (m : String) :
    tableExistsB (addColumnsLoop infer n ex db ops l).1 m = tableExistsB db m := by
  induction l generalizing db ops with
  | nil => rfl
  | cons kv rest ih =>
    by_cases h1 : jsIsNonNullObject kv.2 = true
    · simpa [addColumnsLoop, h1] using ih db ops
    · by_cases h2 : kv.1.toLower ∈ ex
      · simpa [addColumnsLoop, h1, h2] using ih db ops
      · simp only [addColumnsLoop, h1, Bool.false_eq_true, if_false, h2]
        rw [ih _ _, tableExistsB_addColumn]

theorem addColumnsLoop_covers (infer : JValue → String) (n : String)
    (ex : List String) (l : List (String × JValue)) (db : DB) (ops : List DbOp)
    (hex : tableExistsB db n = true)
    (hsub : ∀ s ∈ ex, ∃ c ∈ getCols db n, c.name.toLower = s) :
    ∀ kv ∈ l, jsIsNonNullObject kv.2 = false →
      hasColCI (getCols (addColumnsLoop infer n ex db ops l).1 n) kv.1 := by
  induction l generalizing db ops with
  | nil => intro kv hkv; exact absurd hkv (List.not_mem_nil kv)
  | cons kv0 rest ih =>
    intro kv hkv hobj
    rcases List.mem_cons.mp hkv with hkv | hkv
    · subst hkv
      by_cases h2 : kv.1.toLower ∈ ex
      · obtain ⟨c, hc, hcl⟩ := hsub kv.1.toLower h2
        refine ⟨c, ?_, hcl⟩
        simp only [addColumnsLoop, hobj, Bool.false_eq_true, if_false, h2, if_true]
        exact addColumnsLoop_mono infer n ex rest db ops n c hc
      · simp only [addColumnsLoop, hobj, Bool.false_eq_true, if_false, h2]
        refine ⟨⟨kv.1, infer kv.2⟩, ?_, rfl⟩
        apply addColumnsLoop_mono
        rw [getCols_addColumn_self db n _ hex]
        exact List.mem_append_right _ (List.mem_singleton.mpr rfl)
    · by_cases h1 : jsIsNonNullObject kv0.2 = true
      · simp only [addColumnsLoop, h1, if_true]
        exact ih db ops hex hsub kv hkv hobj
      · simp only [Bool.not_eq_true] at h1
        by_cases h2 : kv0.1.toLower ∈ ex
        · simp only [addColumnsLoop, h1, Bool.false_eq_true, if_false, h2, if_true]
          exact ih db ops hex hsub kv hkv hobj
        · simp only [addColumnsLoop, h1, Bool.false_eq_true, if_false, h2]
          refine ih _ _ ?_ ?_ kv hkv hobj
          · rw [tableExistsB_addColumn]; exact hex
          · intro s hs
            obtain ⟨c, hc, hcl⟩ := hsub s hs
            exact ⟨c, mem_getCols_addColumn db n n c _ hc, hcl⟩

theorem ensureTable_mono (a : Adapter) (db : DB) (n : String) (r : Option Row)
    (m : String) (c : Column) (h : c ∈ getCols db m) :
    c ∈ getCols (ensureTable a db n r).1 m := by
  cases r with
  | none => exact h
  | some row =>
    by_cases hex : tableExistsB db n = true
    · simp only [ensureTable, hex, if_true]
      exact addColumnsLoop_mono _ _ _ _ _ _ m c h
    · simp only [Bool.not_eq_true] at hex
      simp only [ensureTable, hex, Bool.false_eq_true, if_false, createTable, hex]
      exact getCols_append_single_of_mem db m c _ h

theorem ensureTable_covers (a : Adapter) (db : DB) (n : String) (row : Row) :
    ∀ kv ∈ row, jsIsNonNullObject kv.2 = false →
      hasColCI (getCols (ensureTable a db n (some row)).1 n) kv.1 := by
  intro kv hkv hobj
  by_cases hex : tableExistsB db n = true
  · simp only [ensureTable, hex, if_true]
    refine addColumnsLoop_covers a.inferColumnType n _ row db _ hex ?_ kv hkv hobj
    intro s hs
    obtain ⟨c, hc, hcl⟩ := List.mem_map.mp hs
    exact ⟨c, hc, hcl⟩
  · simp only [Bool.not_eq_true] at hex
    simp only [ensureTable, hex, Bool.false_eq_true, if_false, createTable, hex]
    rw [getCols_append_single_new db n _ hex]
    refine ⟨⟨kv.1, a.inferColumnType kv.2⟩, ?_, rfl⟩
    refine List.mem_cons_of_mem _ (List.mem_append_left _ ?_)
    exact List.mem_map.mpr ⟨kv, List.mem_filter.mpr ⟨hkv, by simp [hobj]⟩, rfl⟩

theorem runEnsures_mono (a : Adapter) (db : DB) (n : String)
    (l : List (Option Row)) (m : String) (c : Column) (h : c ∈ getCols db m) :
    c ∈ getCols (runEnsures a db n l) m := by
  induction l generalizing db with
  | nil => exact h
  | cons r rest ih =>
    exact ih _ (ensureTable_mono a db n r m c h)

theorem runEnsures_covers (a : Adapter) (db : DB) (n : String)
    (l : List (Option Row)) :
    ∀ row : Row, some row ∈ l → ∀ kv ∈ row, jsIsNonNullObject kv.2 = false →
      hasColCI (getCols (runEnsures a db n l) n) kv.1 := by
  induction l generalizing db with
  | nil => intro row hrow; exact absurd hrow (List.not_mem_nil _)
  | cons r rest ih =>
    intro row hrow kv hkv hobj
    rcases List.mem_cons.mp hrow with hrow | hrow
    · have hrow' : r = some row := hrow.symm
      subst hrow'
      obtain ⟨c, hc, hcl⟩ := ensureTable_covers a db n row kv hkv hobj
      exact ⟨c, runEnsures_mono a _ n rest n c hc, hcl⟩
    · exact ih _ row hrow kv hkv hobj

/-- C2: over any sequence of `ensureTable` calls against the same table,
every column present after some prefix of the calls is still present (with
the same type) after the remaining calls — columns are never removed or
retyped — and after each prefix the table's columns cover, case-
insensitively, every non-object, non-array key of every representative row
passed so far. -/
theorem c2_additive_schema (a : Adapter) (db : DB) (name : String)
    (pre suf : List (Option Row)) :
    (∀ c ∈ getCols (runEnsures a db name pre) name,
        c ∈ getCols (runEnsures a db name (pre ++ suf)) name) ∧
    (∀ row : Row, some row ∈ pre → ∀ kv ∈ row, jsIsNonNullObject kv.2 = false →
        hasColCI (getCols (runEnsures a db name pre) name) kv.1) := by
  constructor
  · intro c hc
    have : runEnsures a db name (pre ++ suf) =
        runEnsures a (runEnsures a db name pre) name suf := by
      unfold runEnsures
      rw [List.foldl_append]
    rw [this]
    exact runEnsures_mono a _ name suf name c hc
  · exact runEnsures_covers a db name pre

/-- Witness for C2: two successive calls on table `t` — the second call's
key `b` is added while the first call's column `a` both remains present and
still covers its key. -/
theorem c2_additive_schema_witness :
    (⟨"a", "DECIMAL(20,6)"⟩ : Column) ∈
      getCols (runEnsures mysqlAdapter [] "t"
        ([some [("a", JValue.num 1)]] ++ [some [("b", JValue.bool true)]])) "t" ∧
    hasColCI (getCols (runEnsures mysqlAdapter [] "t"
        [some [("a", JValue.num 1)], some [("b", JValue.bool true)]]) "t") "a" := by
  constructor
  · apply (c2_additive_schema mysqlAdapter [] "t"
      [some [("a", JValue.num 1)]] [some [("b", JValue.bool true)]]).1
    decide
  · exact (c2_additive_schema mysqlAdapter [] "t"
      [some [("a", JValue.num 1)], some [("b", JValue.bool true)]] []).2
      [("a", JValue.num 1)] (by simp) ("a", JValue.num 1) (by simp) (by decide)

theorem fetchLoop_requests_lower (server : Nat → Option JValue) (p : Nat)
    (pg : List (List JValue)) (r t : Nat) :
    r + 1 ≤ (fetchLoop server p pg r t).requests := by
  induction p, pg, r, t using fetchLoop.induct server with
  | case1 p pg r t hs => rw [fetchLoop, hs]
  | case2 p pg r t resp hs hf => rw [fetchLoop, hs]; simp [hf]
  | case3 p pg r t resp hs hf c hd => rw [fetchLoop, hs]; simp [hf, hd]
  | case4 p pg r t resp hs hf c hd hcap => rw [fetchLoop, hs]; simp [hf, hd, hcap]
  | case5 p pg r t resp hs hf c hd pageData pages' totalF' hasMore' hcap hm ih =>
    rw [fetchLoop, hs]
    simp only [Bool.not_eq_true] at hf hd
    simp only [hf, hd, hcap, Bool.false_eq_true, if_false, dite_false]
    rw [if_pos hm]
    exact le_trans (by omega) ih
  | case6 p pg r t resp hs hf c hd pageData hasMore' hcap hm =>
    rw [fetchLoop, hs]
    simp only [Bool.not_eq_true] at hf hd hm
    simp only [hf, hd, hcap, Bool.false_eq_true, if_false, dite_false]
    rw [if_neg (show ¬(hasMore' = true) by simp [hm])]

theorem fetchLoop_requests_upper (server : Nat → Option JValue) (p : Nat)
    (pg : List (List JValue)) (r t : Nat) :
    p ≤ 1000 → (fetchLoop server p pg r t).requests ≤ r + (1001 - p) := by
  induction p, pg, r, t using fetchLoop.induct server with
  | case1 p pg r t hs =>
    intro hp; rw [fetchLoop, hs]; simp; omega
  | case2 p pg r t resp hs hf =>
    intro hp; rw [fetchLoop, hs]; simp [hf]; omega
  | case3 p pg r t resp hs hf c hd =>
    intro hp; rw [fetchLoop, hs]; simp [hf, hd]; omega
  | case4 p pg r t resp hs hf c hd hcap =>
    intro hp; rw [fetchLoop, hs]; simp [hf, hd, hcap]; omega
  | case5 p pg r t resp hs hf c hd pageData pages' totalF' hasMore' hcap hm ih =>
    intro hp
    rw [fetchLoop, hs]
    simp only [Bool.not_eq_true] at hf hd
    simp only [hf, hd, hcap, Bool.false_eq_true, if_false, dite_false]
    rw [if_pos hm]
    exact le_trans (ih (by omega)) (by omega)
  | case6 p pg r t resp hs hf c hd pageData hasMore' hcap hm =>
    intro hp
    rw [fetchLoop, hs]
    simp only [Bool.not_eq_true] at hf hd hm
    simp only [hf, hd, hcap, Bool.false_eq_true, if_false, dite_false]
    rw [if_neg (show ¬(hasMore' = true) by simp [hm])]
    simp; omega

theorem fetchLoop_always_more (server : Nat → Option JValue)
    (h : ∀ n, 1 ≤ n → ∃ fields l, server n = some (.obj fields) ∧
      jsProp fields "data" = .arr l ∧ l ≠ [] ∧
      jsParseInt (jsProp fields "count") = none)
    (p : Nat) (pg : List (List JValue)) (r t : Nat) :
    1 ≤ p → p ≤ 1000 →
      (fetchLoop server p pg r t).requests = r + (1001 - p) ∧
      (fetchLoop server p pg r t).aborted = false := by
  induction p, pg, r, t using fetchLoop.induct server with
  | case1 p pg r t hs =>
    intro hp1 hp2
    obtain ⟨fields, l, hs', _, _, _⟩ := h p hp1
    rw [hs] at hs'; exact absurd hs' (by simp)
  | case2 p pg r t resp hs hf =>
    intro hp1 hp2
    obtain ⟨fields, l, hs', _, _, _⟩ := h p hp1
    rw [hs] at hs'
    obtain rfl : resp = .obj fields := by injection hs'
    exact absurd hf (by simp [jsFalsy])
  | case3 p pg r t resp hs hf c hd =>
    intro hp1 hp2
    obtain ⟨fields, l, hs', hdata, hne, hct⟩ := h p hp1
    rw [hs] at hs'
    obtain rfl : resp = .obj fields := by injection hs'
    have hc : c = ((.arr l : JValue), true, true) := by
      show classifyResp (JValue.obj fields) = _
      simp [classifyResp, hdata]
    rw [hc] at hd
    simp [dataEmptyCheck, jsFalsy, hne] at hd
  | case4 p pg r t resp hs hf c hd hcap =>
    intro hp1 hp2
    rw [fetchLoop, hs]
    simp only [Bool.not_eq_true] at hf hd
    simp [hf, hd, hcap]
    omega
  | case5 p pg r t resp hs hf c hd pageData pages' totalF' hasMore' hcap hm ih =>
    intro hp1 hp2
    rw [fetchLoop, hs]
    simp only [Bool.not_eq_true] at hf hd
    simp only [hf, hd, hcap, Bool.false_eq_true, if_false, dite_false]
    rw [if_pos hm]
    obtain ⟨ih1, ih2⟩ := ih (by omega) (by omega)
    exact ⟨by rw [ih1]; omega, ih2⟩
  | case6 p pg r t resp hs hf c hd pageData hasMore' hcap hm =>
    intro hp1 hp2
    obtain ⟨fields, l, hs', hdata, hne, hct⟩ := h p hp1
    rw [hs] at hs'
    obtain rfl : resp = .obj fields := by injection hs'
    have hc : c = ((.arr l : JValue), true, true) := by
      show classifyResp (JValue.obj fields) = _
      simp [classifyResp, hdata]
    have hpd : pageData = l := by
      show toPageData c.1 = l
      rw [hc]
      rfl
    have hmval : hasMore' = true := by
      show nextHasMore (JValue.obj fields) pageData p c.2.1 c.2.2 = true
      rw [hpd, hc]
      simp only [nextHasMore, if_pos]
      simp [decideMore, coerceCount, jsPropV, hct, List.length_pos, hne]
    simp only [Bool.not_eq_true] at hm
    rw [hmval] at hm
    exact absurd hm (by simp)

theorem fetchLoop_abort_at (server : Nat → Option JValue) (k : Nat)
    (hnone : server k = none) (p : Nat) (pg : List (List JValue)) (r t : Nat) :
    r + 1 = p → 1 ≤ p → p ≤ k → k ≤ (fetchLoop server p pg r t).requests →
      (fetchLoop server p pg r t).aborted = true ∧
      (fetchLoop server p pg r t).requests = k := by
  induction p, pg, r, t using fetchLoop.induct server with
  | case1 p pg r t hs =>
    intro hr hp1 hpk hreach
    rw [fetchLoop, hs] at hreach ⊢
    simp at hreach ⊢
    omega
  | case2 p pg r t resp hs hf =>
    intro hr hp1 hpk hreach
    rw [fetchLoop, hs] at hreach
    simp [hf] at hreach
    have : p = k := by omega
    subst this
    rw [hnone] at hs
    exact absurd hs (by simp)
  | case3 p pg r t resp hs hf c hd =>
    intro hr hp1 hpk hreach
    rw [fetchLoop, hs] at hreach
    simp only [Bool.not_eq_true] at hf hd
    simp [hf, hd] at hreach
    have : p = k := by omega
    subst this
    rw [hnone] at hs
    exact absurd hs (by simp)
  | case4 p pg r t resp hs hf c hd hcap =>
    intro hr hp1 hpk hreach
    rw [fetchLoop, hs] at hreach
    simp only [Bool.not_eq_true] at hf hd
    simp [hf, hd, hcap] at hreach
    have : p = k := by omega
    subst this
    rw [hnone] at hs
    exact absurd hs (by simp)
  | case5 p pg r t resp hs hf c hd pageData pages' totalF' hasMore' hcap hm ih =>
    intro hr hp1 hpk hreach
    have hpk' : p < k := by
      rcases Nat.lt_or_ge p k with h' | h'
      · exact h'
      · have : p = k := by omega
        subst this
        rw [hnone] at hs
        exact absurd hs (by simp)
    rw [fetchLoop, hs] at hreach ⊢
    simp only [Bool.not_eq_true] at hf hd
    simp only [hf, hd, hcap, Bool.false_eq_true, if_false, dite_false] at hreach ⊢
    rw [if_pos hm] at hreach ⊢
    exact ih (by omega) (by omega) (by omega) hreach
  | case6 p pg r t resp hs hf c hd pageData hasMore' hcap hm =>
    intro hr hp1 hpk hreach
    rw [fetchLoop, hs] at hreach
    simp only [Bool.not_eq_true] at hf hd hm
    simp only [hf, hd, hcap, Bool.false_eq_true, if_false, dite_false] at hreach
    rw [if_neg (show ¬(hasMore' = true) by simp [hm])] at hreach
    simp at hreach
    have : p = k := by omega
    subst this
    rw [hnone] at hs
    exact absurd hs (by simp)

theorem fetchLoop_wrapped_step (server : Nat → Option JValue) (p : Nat)
    (fields : List (String × JValue)) (l : List JValue)
    (pg : List (List JValue)) (r t : Nat) (hp : p + 1 ≤ 1000)
    (hs : server p = some (.obj fields))
    (hdata : jsProp fields "data" = .arr l) (hne : l ≠ []) :
    fetchLoop server p pg r t =
      (if decideMore (.obj fields) l p then
        fetchLoop server (p + 1) (pg ++ [l]) (r + 1) (t + l.length)
      else ⟨pg ++ [l], r + 1, t + l.length, false⟩) := by
  have hfalsy : jsFalsy (JValue.obj fields) = false := rfl
  have hc : classifyResp (JValue.obj fields) = ((.arr l : JValue), true, true) := by
    simp [classifyResp, hdata]
  have hd : dataEmptyCheck (JValue.arr l) = false := by
    simp [dataEmptyCheck, jsFalsy, hne]
  have hcap : ¬1000 < p + 1 := by omega
  rw [fetchLoop, hs]
  dsimp only
  rw [hfalsy]
  simp only [Bool.false_eq_true, if_false, hc]
  rw [hd]
  simp only [Bool.false_eq_true, if_false, toPageData]
  rw [dif_neg hcap]
  simp only [nextHasMore, if_true, ite_true]

theorem decideMore_of_parse (fields : List (String × JValue)) (l : List JValue)
    (p : Nat) (cp count : Int)
    (hcp : jsParseInt (jsProp fields "current_page") = some cp) (hcpnz : cp ≠ 0)
    (hct : jsParseInt (jsProp fields "count") = some count) (hpos : 0 < count)
    (hlen : 0 < l.length) :
    decideMore (.obj fields) l p =
      decide (cp < ⌈(count : Rat) / (l.length : Rat)⌉) := by
  simp [decideMore, coerceCurrentPage, coerceCount, jsPropV, hcp, hct, hcpnz, hpos, hlen,
    Nat.pos_iff_ne_zero]

/-- C1: for a wrapped-shape response sequence that reports `count = 250`,
carries 100 records per page, and echoes the requested page number in
`current_page`, the engine computes `totalPages = ceil(count / pageSize)`
from each received page, continues while `currentPage < totalPages`, and
issues exactly 3 requests (fetching 300 records) before stopping, without
aborting. -/
theorem c1_wrapped_termination (server : Nat → Option JValue)
    (h : ∀ n, 1 ≤ n → n ≤ 3 → ∃ fields l, server n = some (.obj fields) ∧
      jsProp fields "data" = .arr l ∧ l.length = 100 ∧
      jsParseInt (jsProp fields "current_page") = some (n : Int) ∧
      jsParseInt (jsProp fields "count") = some 250) :
    (fetchPaginated server).requests = 3 ∧
    (fetchPaginated server).aborted = false ∧
    (fetchPaginated server).totalFetched = 300 := by
  obtain ⟨f1, l1, hs1, hd1, hl1, hcp1, hct1⟩ := h 1 (by omega) (by omega)
  obtain ⟨f2, l2, hs2, hd2, hl2, hcp2, hct2⟩ := h 2 (by omega) (by omega)
  obtain ⟨f3, l3, hs3, hd3, hl3, hcp3, hct3⟩ := h 3 (by omega) (by omega)
  have hceil : (⌈((250 : Int) : Rat) / ((100 : Nat) : Rat)⌉ : Int) = 3 := by
    rw [show (((250 : Int) : Rat) / ((100 : Nat) : Rat)) = 5 / 2 by norm_num]
    norm_num [Int.ceil_eq_iff]
  have hne1 : l1 ≠ [] := by intro hc; rw [hc] at hl1; simp at hl1
  have hne2 : l2 ≠ [] := by intro hc; rw [hc] at hl2; simp at hl2
  have hne3 : l3 ≠ [] := by intro hc; rw [hc] at hl3; simp at hl3
  have hm1 : decideMore (.obj f1) l1 1 = true := by
    rw [decideMore_of_parse f1 l1 1 1 250 hcp1 (by omega) hct1 (by omega) (by omega)]
    rw [hl1, hceil]
    decide
  have hm2 : decideMore (.obj f2) l2 2 = true := by
    rw [decideMore_of_parse f2 l2 2 2 250 hcp2 (by omega) hct2 (by omega) (by omega)]
    rw [hl2, hceil]
    decide
  have hm3 : decideMore (.obj f3) l3 3 = false := by
    rw [decideMore_of_parse f3 l3 3 3 250 hcp3 (by omega) hct3 (by omega) (by omega)]
    rw [hl3, hceil]
    decide
  have e1 := fetchLoop_wrapped_step server 1 f1 l1 [] 0 0 (by omega) hs1 hd1 hne1
  have e2 := fetchLoop_wrapped_step server 2 f2 l2 [l1] 1 l1.length (by omega) hs2 hd2 hne2
  have e3 := fetchLoop_wrapped_step server 3 f3 l3 [l1, l2] 2 (l1.length + l2.length)
    (by omega) hs3 hd3 hne3
  rw [if_pos hm1] at e1
  rw [if_pos hm2] at e2
  rw [if_neg (show ¬(decideMore (.obj f3) l3 3 = true) by simp [hm3])] at e3
  show (fetchLoop server 1 [] 0 0).requests = 3 ∧
    (fetchLoop server 1 [] 0 0).aborted = false ∧
    (fetchLoop server 1 [] 0 0).totalFetched = 300
  rw [e1]
  simp only [List.nil_append, Nat.zero_add]
  rw [e2]
  simp only [List.singleton_append, Nat.zero_add]
  rw [e3]
  simp [hl1, hl2, hl3]

/-- C4: whenever the transport returns a non-JSON response (null) for a
page position the fetch actually reaches, `fetchPaginated` aborts the
entire fetch at that request — no matter how many pages were fetched
before — and returns the empty result, reporting zero records. -/
theorem c4_non_json_aborts (server : Nat → Option JValue) (k : Nat)
    (hk : 1 ≤ k) (hnone : server k = none)
    (hreach : k ≤ (fetchPaginated server).requests) :
    (fetchPaginated server).aborted = true ∧
    (fetchPaginated server).requests = k ∧
    batchReturn (fetchPaginated server) = [] := by
  have h := fetchLoop_abort_at server k hnone 1 [] 0 0 rfl (by omega) hk hreach
  have hab : (fetchPaginated server).aborted = true := h.1
  have hreq : (fetchPaginated server).requests = k := h.2
  refine ⟨hab, hreq, ?_⟩
  unfold batchReturn
  rw [hab]
  rfl

/-- C8: every fetch issues at most 1000 page requests; against a server
that always signals more data (nonempty wrapped pages with no usable
count), the loop stops after page 1000 without raising an error. -/
theorem c8_pagination_cap (server : Nat → Option JValue)
    (h : ∀ n, 1 ≤ n → ∃ fields l, server n = some (.obj fields) ∧
      jsProp fields "data" = .arr l ∧ l ≠ [] ∧
      jsParseInt (jsProp fields "count") = none) :
    (∀ s : Nat → Option JValue, (fetchPaginated s).requests ≤ 1000) ∧
    (fetchPaginated server).requests = 1000 ∧
    (fetchPaginated server).aborted = false := by
  refine ⟨fun s => ?_, ?_, ?_⟩
  · have := fetchLoop_requests_upper s 1 [] 0 0 (by omega)
    exact le_trans this (by omega)
  · have h1 : (fetchPaginated server).requests = 0 + (1001 - 1) :=
      (fetchLoop_always_more server h 1 [] 0 0 (by omega) (by omega)).1
    omega
  · exact (fetchLoop_always_more server h 1 [] 0 0 (by omega) (by omega)).2

/-- C9: non-numeric `current_page` and `count` fields of a wrapped
response never fail: `current_page` is coerced to the current loop counter
and `count` to zero, the no-usable-count continuation rule applies, and
the fetch proceeds to issue the next request. -/
theorem c9_metadata_coercion (server : Nat → Option JValue)
    (fields : List (String × JValue)) (l : List JValue) (p : Nat)
    (h1 : server 1 = some (.obj fields))
    (hd : jsProp fields "data" = .arr l) (hne : l ≠ [])
    (hcp : jsParseInt (jsProp fields "current_page") = none)
    (hct : jsParseInt (jsProp fields "count") = none) :
    coerceCurrentPage (.obj fields) p = (p : Int) ∧
    coerceCount (.obj fields) = 0 ∧
    2 ≤ (fetchPaginated server).requests := by
  refine ⟨by simp [coerceCurrentPage, jsPropV, hcp],
    by simp [coerceCount, jsPropV, hct], ?_⟩
  have hmore : decideMore (.obj fields) l 1 = true := by
    simp [decideMore, coerceCount, jsPropV, hct, List.length_pos, hne]
  have hstep := fetchLoop_wrapped_step server 1 fields l [] 0 0 (by omega) h1 hd hne
  rw [if_pos hmore] at hstep
  show 2 ≤ (fetchLoop server 1 [] 0 0).requests
  rw [hstep]
  have := fetchLoop_requests_lower server (1 + 1) ([] ++ [l]) (0 + 1) (0 + l.length)
  omega

/-- Witness for C1: a concrete three-page server with count 250 and
100-record pages. -/
theorem c1_witness :
    (fetchPaginated (fun n =>
      if n = 1 then
        some (.obj [("data", .arr (List.replicate 100 (.num 5))),
                    ("current_page", .num 1), ("count", .num 250)])
      else if n = 2 then
        some (.obj [("data", .arr (List.replicate 100 (.num 5))),
                    ("current_page", .num 2), ("count", .num 250)])
      else
        some (.obj [("data", .arr (List.replicate 100 (.num 5))),
                    ("current_page", .num 3), ("count", .num 250)]))).requests = 3 := by
  refine (c1_wrapped_termination _ ?_).1
  intro n hn1 hn3
  interval_cases n
  · exact ⟨_, List.replicate 100 (.num 5), rfl, rfl, by simp, by decide, by decide⟩
  · exact ⟨_, List.replicate 100 (.num 5), rfl, rfl, by simp, by decide, by decide⟩
  · exact ⟨_, List.replicate 100 (.num 5), rfl, rfl, by simp, by decide, by decide⟩

/-- Witness for C4: a transport that immediately returns a non-JSON
response. -/
theorem c4_witness :
    (fetchPaginated (fun _ => none)).aborted = true ∧
    (fetchPaginated (fun _ => none)).requests = 1 ∧
    batchReturn (fetchPaginated (fun _ => none)) = [] := by
  refine c4_non_json_aborts (fun _ => none) 1 (by omega) rfl ?_
  have := fetchLoop_requests_lower (fun _ => none) 1 [] 0 0
  exact this

/-- Witness for C8: a server that always returns a nonempty wrapped page
with no count. -/
theorem c8_witness :
    (fetchPaginated (fun _ => some (.obj [("data", .arr [.num 1])]))).requests = 1000 := by
  refine (c8_pagination_cap _ ?_).2.1
  intro n hn
  exact ⟨[("data", .arr [.num 1])], [.num 1], rfl, rfl, by simp, rfl⟩

/-- Witness for C9: a wrapped response whose pagination metadata is
non-numeric text. -/
theorem c9_witness :
    coerceCurrentPage (.obj [("data", .arr [.num 1]), ("current_page", .str "seven"),
        ("count", .str "n/a")]) 7 = 7 ∧
    coerceCount (.obj [("data", .arr [.num 1]), ("current_page", .str "seven"),
        ("count", .str "n/a")]) = 0 ∧
    2 ≤ (fetchPaginated (fun _ =>
      some (.obj [("data", .arr [.num 1]), ("current_page", .str "seven"),
        ("count", .str "n/a")]))).requests := by
  exact c9_metadata_coercion _ _ [.num 1] 7 rfl rfl (by simp) (by decide) (by decide)
